import Mathlib

/-!
Verification of the HBase utilities module of fink-broker
(`fink_broker/hbaseUtils.py`), as a shallow embedding in Lean 4.

The embedding models:
  - `construct_hbase_catalog_from_flatten_schema` : catalog string compilation
    from a flattened Spark schema (a Python dict lookup failure, i.e. a
    KeyError, is modelled by `Option.none`);
  - `select_relevant_columns` : tolerant column projection;
  - `assign_column_family_names` : name-to-family map construction;
  - `attach_rowkey` / `retrieve_row_key_cols` : row-key column construction;
  - `construct_schema_row` : the self-describing schema row (the numpy
    fixed-width string array dtype <U75 is modelled by truncation to
    75 characters).

Spark scalar values are modelled by the inductive type `Value`; a double is
represented by its canonical Spark string rendering, since only the string
cast of values is ever observed by the code under study (floating-point
formatting itself is outside the embedding). Nested (dict-valued) schema
types carry the Python str() rendering of their json value, since the code
only ever tests dict-ness or stringifies them.
-/

/-- The json value of the `type` entry of a flattened Spark schema field:
either a primitive type name (a Python string) or a nested json object (a
Python dict, e.g. for array or struct types), carried here as the Python
str() rendering of that dict. -/
inductive FieldType where
  | prim (s : String)
  | nested (reprStr : String)
deriving DecidableEq, Repr

/-- One field of `schema.jsonValue()["fields"]`: the code reads only the
`name` and `type` entries; `nullable` is carried for fidelity and ignored. -/
structure SchemaField where
  name : String
  ftype : FieldType
  nullable : Bool
deriving DecidableEq, Repr

/-- The in-place type normalisation performed on each column of the schema:
`if type(column["type"]) == dict: column["type"] = "string"` followed by
`if column["type"] == "timestamp": column["type"] = "string"`. -/
def normalizeType (t : FieldType) : String :=
  let t1 := match t with
    | FieldType.nested _ => "string"
    | FieldType.prim s => s
  if t1 = "timestamp" then "string" else t1

/-- The catalog prefix built by the first string of
`construct_hbase_catalog_from_flatten_schema` after `.format(catalogname,
rowkeyname)` (quotes and braces written with escapes; the final global
quote replacement happens at the end, as in the code). -/
def headerStr (catalogname rowkeyname : String) : String :=
  "\n    \x7b\n        \x27table\x27: \x7b\n            \x27namespace\x27: \x27default\x27,\n            \x27name\x27: \x27"
    ++ catalogname
    ++ "\x27\n        \x7d,\n        \x27rowkey\x27: \x27"
    ++ rowkeyname
    ++ "\x27,\n        \x27columns\x27: \x7b\n    "

/-- The fixed catalog entry (qualifier named annotation, family a, empty
column, type string) appended after the per-column loop. -/
def annotEntry : String :=
  "\x27annotation\x27: \x7b\x27cf\x27: \x27a\x27, \x27col\x27: \x27\x27, \x27type\x27: \x27string\x27\x7d"

/-- The closing braces appended after the annotation entry. -/
def footerStr : String := "\n        \x7d\n    \x7d\n    "

/-- The string contributed to the catalog by one schema column: a
`rowkey`-family entry when the column name equals `rowkeyname`, otherwise a
normal entry whose family is looked up in the dict `cf` — a missing key
raises KeyError in Python, modelled by `none`. `sep` is the constant `","`
in the code. -/
def entryFor (rowkeyname : String) (cf : List (String × String))
    (column : SchemaField) : Option String :=
  let t := normalizeType column.ftype
  let sep := ","
  if column.name = rowkeyname then
    some ("\n            \x27" ++ column.name
      ++ "\x27: \x7b\x27cf\x27: \x27rowkey\x27, \x27col\x27: \x27" ++ column.name
      ++ "\x27, \x27type\x27: \x27" ++ t ++ "\x27\x7d" ++ sep ++ "\n            ")
  else
    match List.lookup column.name cf with
    | none => none
    | some fam =>
      some ("\n            \x27" ++ column.name
        ++ "\x27: \x7b\x27cf\x27: \x27" ++ fam ++ "\x27, \x27col\x27: \x27" ++ column.name
        ++ "\x27, \x27type\x27: \x27" ++ t ++ "\x27\x7d" ++ sep ++ "\n            ")

/-- The `for column in schema_columns` loop: appends each column entry to
the accumulated catalog string, aborting (KeyError) on a missing family
mapping. -/
def catalogLoop (rowkeyname : String) (cf : List (String × String)) :
    List SchemaField → String → Option String
  | [], acc => some acc
  | c :: rest, acc =>
    match entryFor rowkeyname cf c with
    | none => none
    | some e => catalogLoop rowkeyname cf rest (acc ++ e)

/-- `construct_hbase_catalog_from_flatten_schema(schema, catalogname,
rowkeyname, cf)`: header, one entry per schema column in order, the fixed
annotation entry, the closing braces, then the global replacement of every
single quote by a double quote. `none` models the uncaught KeyError raised
on a family mapping missing for a non-key column. -/
def construct_hbase_catalog_from_flatten_schema (schema : List SchemaField)
    (catalogname rowkeyname : String) (cf : List (String × String)) :
    Option String :=
  match catalogLoop rowkeyname cf schema (headerStr catalogname rowkeyname) with
  | none => none
  | some body => some ((body ++ annotEntry ++ footerStr).replace "\x27" "\x22")

/-- The `for col_ in cols` loop of `select_relevant_columns`: a column that
resolves against the DataFrame (here: membership among its column names) is
appended to `cnames`, otherwise to `missing_cols`; the AnalysisException of
an unresolved column is caught, so the loop never aborts. -/
def selectLoop (dfcols : List String) :
    List String → List String → List String → List String × List String
  | [], cnames, missing => (cnames, missing)
  | c :: rest, cnames, missing =>
    if c ∈ dfcols then selectLoop dfcols rest (cnames ++ [c]) missing
    else selectLoop dfcols rest cnames (missing ++ [c])

/-- `select_relevant_columns(df, cols, logger, to_create)`, at the level of
column names: returns the list of selected columns (the projection) and the
list of missing columns (which the code reports through the optional logger
and never raises on). `to_create` models the optional extra expressions
appended verbatim after the resolved columns. -/
def select_relevant_columns (dfcols cols : List String)
    (to_create : Option (List String)) : List String × List String :=
  let r := selectLoop dfcols cols [] []
  let cnames := match to_create with
    | some tc => r.1 ++ tc
    | none => r.1
  (cnames, r.2)

/-- Insertion into a Python dict modelled as an association list: an
existing key keeps its position and gets the new value, a new key is
appended last. -/
def dictInsert (m : List (String × String)) (k v : String) :
    List (String × String) :=
  if m.any (fun p => p.1 = k) then
    m.map (fun p => if p.1 = k then (k, v) else p)
  else m ++ [(k, v)]

/-- `df.select(cols).columns`: the requested column names when every one of
them resolves against the DataFrame, `none` (AnalysisException) otherwise. -/
def selectColumnNames (dfcols cols : List String) : Option (List String) :=
  if cols.all (fun c => c ∈ dfcols) then some cols else none

/-- `assign_column_family_names(df, cols_i, cols_d, cols_b)`: builds the
dict `{i: "i" for i in df.select(cols_i).columns}` and then updates it with
the `"d"` and `"b"` comprehensions, in that order (later buckets win). -/
def assign_column_family_names (dfcols cols_i cols_d cols_b : List String) :
    Option (List (String × String)) :=
  match selectColumnNames dfcols cols_i, selectColumnNames dfcols cols_d,
      selectColumnNames dfcols cols_b with
  | some ci, some cd, some cb =>
    let cf := ci.foldl (fun m i => dictInsert m i "i") []
    let cf := cd.foldl (fun m i => dictInsert m i "d") cf
    let cf := cb.foldl (fun m i => dictInsert m i "b") cf
    some cf
  | _, _, _ => none

/-- A Spark scalar value as observed by this module: a string, a double
(represented by its canonical Spark string rendering, since only the string
cast is ever observed here), or null. -/
inductive Value where
  | vStr (s : String)
  | vDouble (s : String)
  | vNull
deriving DecidableEq, Repr

/-- `col(name).astype("string")`: the canonical string cast; null stays
null. -/
def castString : Value → Value
  | Value.vStr s => Value.vStr s
  | Value.vDouble s => Value.vStr s
  | Value.vNull => Value.vNull

/-- The string content of a value as consumed by `concat_ws`, which skips
nulls. -/
def valueToStrOpt : Value → Option String
  | Value.vStr s => some s
  | Value.vDouble s => some s
  | Value.vNull => none

/-- `str.join` / the joining performed by `concat_ws`: elements separated
by `sep`. -/
def joinSep (sep : String) : List String → String
  | [] => ""
  | [s] => s
  | s :: rest => s ++ sep ++ joinSep sep rest

/-- Spark `concat_ws(sep, *cols)`: a string column joining the non-null
operands with `sep`. -/
def concat_ws (sep : String) (vs : List Value) : Value :=
  Value.vStr (joinSep sep (vs.filterMap valueToStrOpt))

/-- A flattened Spark DataFrame: ordered column names and rows of values
aligned with them positionally. -/
structure DataFrame where
  cols : List String
  rows : List (List Value)
deriving Repr

/-- `col(name)` evaluated on one row: the value at the position of the
first column named `name` (null when absent; the code never reads an
absent column under the preconditions of the theorems below). -/
def lookupValue (cols : List String) (row : List Value) (name : String) :
    Value :=
  match cols.findIdx? (fun c => c = name) with
  | some i => row.getD i Value.vNull
  | none => Value.vNull

/-- `df.withColumn(name, expr)`: replaces the column in place when a column
of that name exists, otherwise appends a new column whose value on each row
is `expr` evaluated on that row. -/
def withColumn (df : DataFrame) (name : String)
    (expr : List Value → Value) : DataFrame :=
  match df.cols.findIdx? (fun c => c = name) with
  | some i => ⟨df.cols, df.rows.map (fun r => r.set i (expr r))⟩
  | none => ⟨df.cols ++ [name], df.rows.map (fun r => r ++ [expr r])⟩

/-- `retrieve_row_key_cols()`: the fixed list of columns used to build the
row key. -/
def retrieve_row_key_cols : List String := ["objectId", "jd"]

/-- `attach_rowkey(df, sep)`: the key column name is the `"_"`-join of the
key column list, and the attached column is `concat_ws(sep, *[col(i)
.astype("string") for i in row_key_cols])`. -/
def attach_rowkey (df : DataFrame) (sep : String) : DataFrame × String :=
  let row_key_cols := retrieve_row_key_cols
  let row_key_name := joinSep "_" row_key_cols
  let expr := fun (r : List Value) =>
    concat_ws sep (row_key_cols.map
      (fun i => castString (lookupValue df.cols r i)))
  (withColumn df row_key_name expr, row_key_name)

/-- Truncation of a string to its first `n` characters: the effect of
storing into a numpy fixed-width unicode array (dtype <U`n`). -/
def truncU (n : Nat) (s : String) : String := String.mk (s.data.take n)

/-- Python `pat in s`: substring containment. -/
def strContains (s pat : String) : Bool :=
  (List.range (s.data.length + 1)).any
    (fun i => pat.data.isPrefixOf (s.data.drop i))

/-- The Python str() rendering of the json `type` of a schema field, as
materialised by `np.array([(c.jsonValue()["type"]) for c in df.schema],
dtype="<U75")` before truncation. -/
def typeRepr : FieldType → String
  | FieldType.prim s => s
  | FieldType.nested r => r

/-- `construct_schema_row(df, rowkeyname, version)`: one record whose
values are the declared column types truncated to 75 characters (numpy
dtype <U75), with columns whose name contains `"cutout"` forced to
`"fits/image"`, and the first column named `rowkeyname` overwritten with
`version` (truncated on assignment into the <U75 array). `none` models the
IndexError of `np.where(...)[0][0]` when `rowkeyname` is absent. The result
is the pair (column names, rows) of `spark.createDataFrame([data.tolist()],
df.columns)`. -/
def construct_schema_row (df : List SchemaField)
    (rowkeyname version : String) : Option (List String × List (List String)) :=
  let data := df.map (fun c => truncU 75 (typeRepr c.ftype))
  let names := df.map (fun c => c.name)
  let data := (names.zip data).map
    (fun p => if strContains p.1 "cutout" then "fits/image" else p.2)
  match names.findIdx? (fun c => c = rowkeyname) with
  | none => none
  | some i => some (names, [data.set i (truncU 75 version)])

/-! ### Helper lemmas -/

theorem join_cons (e : String) (es : List String) :
    String.join (e :: es) = e ++ String.join es := by
  apply String.ext
  simp [String.join_eq, String.data_append]

/-- The list of per-column entry strings in schema order, `none` as soon as
one column aborts: the structured view of the per-column loop against which
the accumulated catalog string is compared. -/
def entriesFor (k : String) (cf : List (String × String)) :
    List SchemaField → Option (List String)
  | [] => some []
  | c :: rest =>
    match entryFor k cf c with
    | none => none
    | some e => Option.map (fun es => e :: es) (entriesFor k cf rest)

theorem catalogLoop_eq_entriesFor (k : String) (cf : List (String × String)) :
    ∀ (schema : List SchemaField) (acc : String),
      catalogLoop k cf schema acc =
        Option.map (fun es => acc ++ String.join es)
          (entriesFor k cf schema) := by
  intro schema
  induction schema with
  | nil =>
    intro acc
    simp [catalogLoop, entriesFor, String.join]
  | cons c rest ih =>
    intro acc
    cases he : entryFor k cf c with
    | none => simp [catalogLoop, entriesFor, he]
    | some e =>
      simp only [catalogLoop, entriesFor, he, ih (acc ++ e)]
      cases hrest : entriesFor k cf rest with
      | none => rfl
      | some es =>
        simp [join_cons, String.append_assoc]

theorem catalogLoop_none_of_missing (k : String) (cf : List (String × String))
    (c : SchemaField) (hk : ¬(c.name = k))
    (hmiss : List.lookup c.name cf = none) :
    ∀ (schema : List SchemaField) (acc : String), c ∈ schema →
      catalogLoop k cf schema acc = none := by
  intro schema
  induction schema with
  | nil => intro acc h; cases h
  | cons d rest ih =>
    intro acc h
    rcases List.mem_cons.mp h with h | h
    · subst h
      have he : entryFor k cf c = none := by
        simp [entryFor, hk, hmiss]
      simp [catalogLoop, he]
    · cases he : entryFor k cf d with
      | none => simp [catalogLoop, he]
      | some e =>
        simp only [catalogLoop, he]
        exact ih _ h

/-! ### Claim theorems: catalog compiler -/

/-- C1: catalog compilation is deterministic — for every flattened schema,
table identity, row-key column name and family map covering every non-key
column, two calls of `construct_hbase_catalog_from_flatten_schema` on
identical inputs return byte-identical catalog strings. (The Python code
mutates only the dicts freshly produced by `schema.jsonValue()`, so each
call is a pure function of its arguments, which the embedding reflects.) -/
theorem catalog_compilation_deterministic
    (s1 s2 : List SchemaField) (t1 t2 k1 k2 : String)
    (f1 f2 : List (String × String))
    (hcov : ∀ c ∈ s1, ¬(c.name = k1) → (List.lookup c.name f1).isSome)
    (hs : s1 = s2) (ht : t1 = t2) (hk : k1 = k2) (hf : f1 = f2) :
    construct_hbase_catalog_from_flatten_schema s1 t1 k1 f1 =
      construct_hbase_catalog_from_flatten_schema s2 t2 k2 f2 := by
  subst hs; subst ht; subst hk; subst hf; rfl

theorem catalog_compilation_deterministic_witness :
    construct_hbase_catalog_from_flatten_schema
      [⟨"a", FieldType.prim "string", true⟩,
       ⟨"b", FieldType.prim "timestamp", true⟩] "tbl" "a" [("b", "d")] =
    construct_hbase_catalog_from_flatten_schema
      [⟨"a", FieldType.prim "string", true⟩,
       ⟨"b", FieldType.prim "timestamp", true⟩] "tbl" "a" [("b", "d")] :=
  catalog_compilation_deterministic _ _ _ _ _ _ _ _
    (by decide) rfl rfl rfl rfl

/-- C2: a non-key schema field whose name has no entry in the family map
makes catalog compilation abort (the uncaught KeyError, modelled as `none`):
no catalog string is produced, the field is neither skipped nor given a
guessed family. -/
theorem catalog_missing_family_fatal
    (schema : List SchemaField) (t k : String) (cf : List (String × String))
    (c : SchemaField) (hc : c ∈ schema) (hk : ¬(c.name = k))
    (hmiss : List.lookup c.name cf = none) :
    construct_hbase_catalog_from_flatten_schema schema t k cf = none := by
  unfold construct_hbase_catalog_from_flatten_schema
  rw [catalogLoop_none_of_missing k cf c hk hmiss schema _ hc]

theorem catalog_missing_family_fatal_witness :
    construct_hbase_catalog_from_flatten_schema
      [⟨"a", FieldType.prim "string", true⟩,
       ⟨"b", FieldType.prim "timestamp", true⟩] "tbl" "a" [("a", "i")] =
      none :=
  catalog_missing_family_fatal _ _ _ _
    ⟨"b", FieldType.prim "timestamp", true⟩ (by decide) (by decide) (by decide)

/-- C3: type normalization — a nested (dict-typed) field and a timestamp
field contribute exactly the entry a `string`-typed field of the same name
would, while any other primitive type name passes through `normalizeType`
(the value emitted into the catalog entry) unchanged. -/
theorem catalog_type_normalization (rk : String) (cf : List (String × String))
    (n r s : String) (b b2 : Bool) (hs : ¬(s = "timestamp")) :
    entryFor rk cf ⟨n, FieldType.nested r, b⟩ =
      entryFor rk cf ⟨n, FieldType.prim "string", b2⟩ ∧
    entryFor rk cf ⟨n, FieldType.prim "timestamp", b⟩ =
      entryFor rk cf ⟨n, FieldType.prim "string", b2⟩ ∧
    normalizeType (FieldType.prim s) = s := by
  refine ⟨rfl, rfl, ?_⟩
  simp [normalizeType, hs]

theorem catalog_type_normalization_witness :
    entryFor "k" [("n", "i")] ⟨"n", FieldType.nested "x", true⟩ =
      entryFor "k" [("n", "i")] ⟨"n", FieldType.prim "string", false⟩ ∧
    entryFor "k" [("n", "i")] ⟨"n", FieldType.prim "timestamp", true⟩ =
      entryFor "k" [("n", "i")] ⟨"n", FieldType.prim "string", false⟩ ∧
    normalizeType (FieldType.prim "double") = "double" :=
  catalog_type_normalization "k" [("n", "i")] "n" "x" "double" true false
    (by decide)

/-- C4: the catalog string is exactly the header followed by the per-column
entries in schema order (the row-key entry wherever it falls in that
order), then the single fixed annotation entry (family `a`, empty
qualifier, type `string`) appended last before the closing braces,
finishing with the global quote replacement. -/
theorem catalog_order_annotation_last
    (schema : List SchemaField) (t k : String) (cf : List (String × String))
    (es : List String) (hes : entriesFor k cf schema = some es) :
    construct_hbase_catalog_from_flatten_schema schema t k cf =
      some ((headerStr t k ++ String.join es ++ annotEntry
        ++ footerStr).replace "\x27" "\x22") := by
  unfold construct_hbase_catalog_from_flatten_schema
  rw [catalogLoop_eq_entriesFor, hes]
  simp [String.append_assoc]

theorem catalog_order_annotation_last_witness :
    construct_hbase_catalog_from_flatten_schema
      [⟨"b", FieldType.prim "double", true⟩,
       ⟨"a", FieldType.prim "string", true⟩] "tbl" "a" [("b", "d")] =
      some ((headerStr "tbl" "a"
        ++ String.join
          ["\n            \x27b\x27: \x7b\x27cf\x27: \x27d\x27, \x27col\x27: \x27b\x27, \x27type\x27: \x27double\x27\x7d,\n            ",
           "\n            \x27a\x27: \x7b\x27cf\x27: \x27rowkey\x27, \x27col\x27: \x27a\x27, \x27type\x27: \x27string\x27\x7d,\n            "]
        ++ annotEntry ++ footerStr).replace "\x27" "\x22") :=
  catalog_order_annotation_last _ _ _ _ _ (by decide)

/-! ### Claim theorems: column projection and family assignment -/

theorem selectLoop_spec (dfcols : List String) :
    ∀ (cols cn ms : List String),
      selectLoop dfcols cols cn ms =
        (cn ++ cols.filter (fun c => c ∈ dfcols),
         ms ++ cols.filter (fun c => ¬(c ∈ dfcols))) := by
  intro cols
  induction cols with
  | nil => intro cn ms; simp [selectLoop]
  | cons c rest ih =>
    intro cn ms
    by_cases h : c ∈ dfcols
    · simp [selectLoop, h, ih]
    · simp [selectLoop, h, ih]

/-- C5: `select_relevant_columns` projects exactly the desired names that
resolve against the dataset, in input order (with the optional extra
expressions appended afterwards); the names that fail to resolve are
collected, in input order, into the missing list that the code reports
through the optional logger; the function is total — a missing column never
raises or aborts the call. -/
theorem select_relevant_columns_spec (dfcols cols : List String)
    (to_create : Option (List String)) :
    select_relevant_columns dfcols cols to_create =
      (cols.filter (fun c => c ∈ dfcols) ++ to_create.getD [],
       cols.filter (fun c => ¬(c ∈ dfcols))) := by
  unfold select_relevant_columns
  rw [selectLoop_spec]
  cases to_create <;> simp

/-- C8: `assign_column_family_names` is a pure function of the dataset and
the three buckets — two calls with the same arguments yield equal
name-to-family maps. -/
theorem assign_families_deterministic
    (df1 df2 ci1 ci2 cd1 cd2 cb1 cb2 : List String)
    (h : df1 = df2 ∧ ci1 = ci2 ∧ cd1 = cd2 ∧ cb1 = cb2) :
    assign_column_family_names df1 ci1 cd1 cb1 =
      assign_column_family_names df2 ci2 cd2 cb2 := by
  obtain ⟨h1, h2, h3, h4⟩ := h
  subst h1; subst h2; subst h3; subst h4
  rfl

theorem assign_families_deterministic_witness :
    assign_column_family_names ["x", "y", "z"] ["x"] ["y"] ["z"] =
      assign_column_family_names ["x", "y", "z"] ["x"] ["y"] ["z"] :=
  assign_families_deterministic _ _ _ _ _ _ _ _ ⟨rfl, rfl, rfl, rfl⟩

/-! ### Claim theorems: row-key builder -/

theorem findIdx?_eq_none_of_not_mem (l : List String) (name : String)
    (h : ¬(name ∈ l)) : l.findIdx? (fun c => c = name) = none := by
  rw [List.findIdx?_eq_none_iff]
  intro x hx
  simp only [decide_eq_false_iff_not]
  intro hxe
  exact h (hxe ▸ hx)

theorem attach_rowkey_core (df : DataFrame) (sep : String)
    (hfree : ¬("objectId_jd" ∈ df.cols)) :
    (attach_rowkey df sep).2 = "objectId_jd" ∧
    (attach_rowkey df sep).1.cols = df.cols ++ ["objectId_jd"] ∧
    ∀ r ∈ df.rows, ∀ a b : String,
      lookupValue df.cols r "objectId" = Value.vStr a →
      lookupValue df.cols r "jd" = Value.vDouble b →
      (r ++ [Value.vStr (a ++ sep ++ b)]) ∈ (attach_rowkey df sep).1.rows := by
  have hname : joinSep "_" retrieve_row_key_cols = "objectId_jd" := by decide
  have hidx : df.cols.findIdx? (fun c => c = "objectId_jd") = none :=
    findIdx?_eq_none_of_not_mem df.cols "objectId_jd" hfree
  refine ⟨hname, ?_, ?_⟩
  · simp only [attach_rowkey, hname, withColumn, hidx]
  · intro r hr a b ha hb
    simp only [attach_rowkey, hname, withColumn, hidx]
    have hv : concat_ws sep (retrieve_row_key_cols.map
        (fun i => castString (lookupValue df.cols r i))) =
        Value.vStr (a ++ sep ++ b) := by
      simp only [retrieve_row_key_cols, List.map, ha, hb]
      simp [concat_ws, castString, valueToStrOpt, joinSep]
    have hmem := List.mem_map_of_mem
      (fun row => row ++ [concat_ws sep (retrieve_row_key_cols.map
        (fun i => castString (lookupValue df.cols row i)))]) hr
    simpa only [hv] using hmem

/-- C6: for a dataset containing `objectId` and `jd` (and not already
containing a column of the designed key name), `attach_rowkey` with the
default separator appends — without removing any source column — a string
column named `objectId_jd` whose value on each record is the
underscore-join of the canonical string forms of the `objectId`
and `jd` values; under the no-collision hypothesis the appended name
differs from every existing data column. -/
theorem attach_rowkey_appends_joined_key (df : DataFrame)
    (hfree : ¬("objectId_jd" ∈ df.cols)) :
    (attach_rowkey df "_").2 = "objectId_jd" ∧
    (attach_rowkey df "_").1.cols = df.cols ++ ["objectId_jd"] ∧
    (∀ c ∈ df.cols, ¬(c = (attach_rowkey df "_").2)) ∧
    ∀ r ∈ df.rows, ∀ a b : String,
      lookupValue df.cols r "objectId" = Value.vStr a →
      lookupValue df.cols r "jd" = Value.vDouble b →
      (r ++ [Value.vStr (a ++ "_" ++ b)]) ∈ (attach_rowkey df "_").1.rows := by
  obtain ⟨h1, h2, h3⟩ := attach_rowkey_core df "_" hfree
  refine ⟨h1, h2, ?_, h3⟩
  intro c hc he
  rw [h1] at he
  exact hfree (he ▸ hc)

theorem attach_rowkey_appends_joined_key_witness :
    ¬("objectId_jd" ∈ (DataFrame.mk ["objectId", "jd"]
        [[Value.vStr "ZTF18abc", Value.vDouble "2458849.5"]]).cols) ∧
    (Value.vStr "ZTF18abc" :: Value.vDouble "2458849.5" ::
        [Value.vStr "ZTF18abc_2458849.5"]) ∈
      (attach_rowkey (DataFrame.mk ["objectId", "jd"]
        [[Value.vStr "ZTF18abc", Value.vDouble "2458849.5"]]) "_").1.rows := by
  refine ⟨by decide, ?_⟩
  have h := (attach_rowkey_appends_joined_key
    (DataFrame.mk ["objectId", "jd"]
      [[Value.vStr "ZTF18abc", Value.vDouble "2458849.5"]]) (by decide)).2.2.2
      [Value.vStr "ZTF18abc", Value.vDouble "2458849.5"]
      (by decide) "ZTF18abc" "2458849.5" (by decide) (by decide)
  exact h

/-- C9: for every separator `sep`, the key column attached by
`attach_rowkey` is named `objectId_jd` — the name is joined with the
literal underscore regardless of `sep` — while the key values are joined
with `sep`; so for `sep` other than `_` the separator in the name and the
separator in the values differ. -/
theorem attach_rowkey_name_ignores_sep (df : DataFrame) (sep : String)
    (hfree : ¬("objectId_jd" ∈ df.cols)) :
    (attach_rowkey df sep).2 = "objectId_jd" ∧
    ∀ r ∈ df.rows, ∀ a b : String,
      lookupValue df.cols r "objectId" = Value.vStr a →
      lookupValue df.cols r "jd" = Value.vDouble b →
      (r ++ [Value.vStr (a ++ sep ++ b)]) ∈ (attach_rowkey df sep).1.rows := by
  obtain ⟨h1, _, h3⟩ := attach_rowkey_core df sep hfree
  exact ⟨h1, h3⟩

theorem attach_rowkey_name_ignores_sep_witness :
    (attach_rowkey (DataFrame.mk ["objectId", "jd"]
        [[Value.vStr "ZTF18abc", Value.vDouble "2458849.5"]]) ",").2 =
      "objectId_jd" ∧
    (Value.vStr "ZTF18abc" :: Value.vDouble "2458849.5" ::
        [Value.vStr "ZTF18abc,2458849.5"]) ∈
      (attach_rowkey (DataFrame.mk ["objectId", "jd"]
        [[Value.vStr "ZTF18abc", Value.vDouble "2458849.5"]]) ",").1.rows := by
  have h := attach_rowkey_name_ignores_sep
    (DataFrame.mk ["objectId", "jd"]
      [[Value.vStr "ZTF18abc", Value.vDouble "2458849.5"]]) "," (by decide)
  exact ⟨h.1, h.2 [Value.vStr "ZTF18abc", Value.vDouble "2458849.5"]
    (by decide) "ZTF18abc" "2458849.5" (by decide) (by decide)⟩

/-! ### Claim theorems: schema row -/

theorem findIdx?_some_lt {α : Type} (p : α → Bool) :
    ∀ (l : List α) (i : Nat), List.findIdx? p l = some i → i < l.length := by
  intro l
  induction l with
  | nil => intro i h; simp [List.findIdx?_nil] at h
  | cons x xs ih =>
    intro i h
    rw [List.findIdx?_cons] at h
    cases hp : p x with
    | true =>
      rw [hp] at h
      simp at h
      simp [List.length_cons]
      omega
    | false =>
      rw [hp] at h
      simp at h
      obtain ⟨a, ha, hai⟩ := h
      have := ih a ha
      simp only [List.length_cons]
      omega

theorem construct_schema_row_eq (df : List SchemaField) (rk version : String)
    (i : Nat)
    (hi : (df.map (fun c => c.name)).findIdx? (fun c => c = rk) = some i) :
    construct_schema_row df rk version =
      some (df.map (fun c => c.name),
        [(df.map (fun c => if strContains c.name "cutout" = true then "fits/image"
            else truncU 75 (typeRepr c.ftype))).set i (truncU 75 version)]) := by
  unfold construct_schema_row
  simp only [List.zip_map', List.map_map, hi]
  rfl

theorem truncU_length (n : Nat) (s : String) :
    (truncU n s).length = min n s.length := by
  have h1 : (truncU n s).length = (s.data.take n).length := rfl
  rw [h1, List.length_take]
  rfl

theorem truncU_ne_of_long (n : Nat) (s : String) (h : n < s.length) :
    ¬(truncU n s = s) := by
  intro he
  have h2 := truncU_length n s
  rw [he] at h2
  have h3 : min n s.length = n := Nat.min_eq_left (Nat.le_of_lt h)
  omega

/-- Counterexample for C7: on the two-column dataset
`[objectId : string, schema_version : string]` with a supplied version
string of 76 characters, the schema row holds only the first 75 characters
of the version string in the `schema_version` column, not the supplied
version string as the claim states. -/
theorem construct_schema_row_version_truncated_cex :
    construct_schema_row
      [⟨"objectId", FieldType.prim "string", true⟩,
       ⟨"schema_version", FieldType.prim "string", true⟩]
      "schema_version" (String.mk (List.replicate 76 'v')) =
      some (["objectId", "schema_version"],
        [["string", String.mk (List.replicate 75 'v')]]) ∧
    ¬(String.mk (List.replicate 75 'v') = String.mk (List.replicate 76 'v')) := by
  constructor
  · decide
  · decide

/-- C7 (amended): for a dataset whose columns include `rowkeyname` (first
occurrence at index `i`), `construct_schema_row` returns the same column
list in the same order and exactly one record, in which each column holds
the first 75 characters of its declared type representation (the numpy
dtype <U75 materialisation), except that columns whose name contains
`cutout` hold the sentinel `fits/image` and the `rowkeyname` column holds
the first 75 characters of the supplied version string — the full type
name, respectively version string, whenever those are at most 75
characters long. -/
theorem construct_schema_row_amended (df : List SchemaField)
    (rk version : String) (i : Nat)
    (hi : (df.map (fun c => c.name)).findIdx? (fun c => c = rk) = some i) :
    construct_schema_row df rk version =
      some (df.map (fun c => c.name),
        [(df.map (fun c => if strContains c.name "cutout" = true then "fits/image"
            else truncU 75 (typeRepr c.ftype))).set i (truncU 75 version)]) :=
  construct_schema_row_eq df rk version i hi

theorem construct_schema_row_amended_witness :
    construct_schema_row
      [⟨"objectId", FieldType.prim "string", true⟩,
       ⟨"cutoutScience_stampData", FieldType.prim "binary", true⟩,
       ⟨"schema_version", FieldType.prim "string", true⟩]
      "schema_version" "schema_1.0_2.0" =
      some (["objectId", "cutoutScience_stampData", "schema_version"],
        [["string", "fits/image", "schema_1.0_2.0"]]) := by
  have h := construct_schema_row_amended
    [⟨"objectId", FieldType.prim "string", true⟩,
     ⟨"cutoutScience_stampData", FieldType.prim "binary", true⟩,
     ⟨"schema_version", FieldType.prim "string", true⟩]
    "schema_version" "schema_1.0_2.0" 2 (by decide)
  rw [h]
  decide

/-- C10: the schema row materialises its single record through a numpy
fixed-width string array of 75 characters, so the `rowkeyname` cell equals
the 75-character truncation of the supplied version string (and differs
from it when the version string is longer than 75 characters), and every
other non-`cutout` cell equals the 75-character truncation of the declared
type representation of that column (and differs from it when that
representation is longer than 75 characters). -/
theorem schema_row_u75_truncation (df : List SchemaField)
    (rk version : String) (i : Nat) (names : List String) (row : List String)
    (hi : (df.map (fun c => c.name)).findIdx? (fun c => c = rk) = some i)
    (hres : construct_schema_row df rk version = some (names, [row])) :
    row.getD i "" = truncU 75 version ∧
    (75 < version.length → ¬(row.getD i "" = version)) ∧
    (∀ j c, ¬(i = j) → df[j]? = some c → strContains c.name "cutout" = false →
      row.getD j "" = truncU 75 (typeRepr c.ftype) ∧
      (75 < (typeRepr c.ftype).length →
        ¬(row.getD j "" = typeRepr c.ftype))) := by
  rw [construct_schema_row_eq df rk version i hi] at hres
  simp only [Option.some.injEq, Prod.mk.injEq, List.cons.injEq,
    and_true] at hres
  obtain ⟨-, hrow⟩ := hres
  subst hrow
  have hlen : i < df.length := by
    have h := findIdx?_some_lt (fun c => c = rk) (df.map (fun c => c.name)) i hi
    simpa using h
  have hlenmap : i < (df.map (fun c =>
      if strContains c.name "cutout" = true then "fits/image"
      else truncU 75 (typeRepr c.ftype))).length := by
    simpa using hlen
  refine ⟨?_, ?_, ?_⟩
  · rw [List.getD_eq_getElem?_getD, List.getElem?_set]
    simp [hlen]
  · intro hv
    rw [List.getD_eq_getElem?_getD, List.getElem?_set]
    simp only [if_pos rfl, List.length_map, if_pos hlen, Option.getD_some]
    exact truncU_ne_of_long 75 version hv
  · intro j c hij hc hcut
    have hcell : ((List.map (fun c =>
          if strContains c.name "cutout" = true then "fits/image"
          else truncU 75 (typeRepr c.ftype)) df).set i
            (truncU 75 version)).getD j "" =
        truncU 75 (typeRepr c.ftype) := by
      rw [List.getD_eq_getElem?_getD, List.getElem?_set]
      simp [hij, List.getElem?_map, hc, hcut]
    refine ⟨hcell, ?_⟩
    intro hlong
    rw [hcell]
    exact truncU_ne_of_long 75 (typeRepr c.ftype) hlong

theorem schema_row_u75_truncation_witness :
    ([String.mk (List.replicate 75 'w')].getD 0 "" =
      truncU 75 (String.mk (List.replicate 76 'w'))) ∧
    ¬([String.mk (List.replicate 75 'w')].getD 0 "" =
      String.mk (List.replicate 76 'w')) := by
  have h := schema_row_u75_truncation
    [⟨"schema_version", FieldType.prim "string", true⟩]
    "schema_version" (String.mk (List.replicate 76 'w')) 0
    ["schema_version"] [String.mk (List.replicate 75 'w')]
    (by decide) (by decide)
  exact ⟨h.1, h.2.1 (by decide)⟩
